import Mathlib

/-!
Verification of the build-artifact upload orchestrator
(`tools/content_uploader`): a shallow embedding of `uploader.py` and
`artifact_manager.py` together with theorems about task resolution,
variation expansion, deduplication, override parsing and error handling.

Python strings are modelled as `List Char`; Python lists as `List`;
dictionaries as association lists.  Filesystem- and subprocess-dependent
steps (`glob.glob`, `os.path.isdir`, `os.path.relpath`, running the CAS
client) are parametrised by explicit oracles carried in environment
records, while all control flow of the repository code is translated
directly.
-/

namespace ContentUploader

/-- Python strings are modelled as lists of characters. -/
abbrev Str := List Char

/-- Converts a Lean string literal into the `Str` model. -/
def str (s : String) : Str := s.data

/-- `ArtifactConfig` from `uploader.py`: configuration of an artifact to be
uploaded to CAS (glob pattern plus upload-mode flags). -/
structure ArtifactConfig where
  source_path : Str
  unzip : Bool
  standard : Bool := true
  chunk : Bool := false
  chunk_dir : Bool := false
  exclude_filters : List Str := []
  deriving Repr, DecidableEq

/-- `CHUNKED_ARTIFACT_NAME_PREFIX` from `uploader.py`. -/
def CHUNKED_ARTIFACT_NAME_PREFIX : Str := str "_chunked_"

/-- `CHUNKED_DIR_ARTIFACT_NAME_PREFIX` from `uploader.py`. -/
def CHUNKED_DIR_ARTIFACT_NAME_PREFIX : Str := str "_chunked_dir_"

/-- `Uploader._artifact_variations`: the variations of an artifact for
upload, one per enabled upload-mode flag. -/
def artifactVariations (path : Str) (artifact : ArtifactConfig) :
    List ArtifactConfig :=
  (if artifact.standard then
    [{ source_path := path, unzip := artifact.unzip, standard := true,
       chunk := false, chunk_dir := false,
       exclude_filters := artifact.exclude_filters }] else []) ++
  (if artifact.chunk then
    [{ source_path := path, unzip := false, standard := false,
       chunk := true, chunk_dir := false,
       exclude_filters := artifact.exclude_filters }] else []) ++
  (if artifact.chunk_dir then
    [{ source_path := path, unzip := true, standard := false,
       chunk := false, chunk_dir := true,
       exclude_filters := artifact.exclude_filters }] else [])

/-- `Uploader._artifact_path`: the unique manifest key of an artifact for
saving in `cas_digests.json`. -/
def artifactPath (path : Str) (artifact : ArtifactConfig) : Str :=
  if artifact.chunk then CHUNKED_ARTIFACT_NAME_PREFIX ++ path
  else if artifact.chunk_dir then CHUNKED_DIR_ARTIFACT_NAME_PREFIX ++ path
  else path

/-- `Uploader._path_flag_for_artifact`: the path flag passed on the CAS
client command line. -/
def pathFlagForArtifact (artifact : ArtifactConfig) : List Str :=
  if artifact.standard then
    [if artifact.unzip then str "-zip-path" else str "-file-path",
     artifact.source_path]
  else if artifact.chunk then [str "-file-path", artifact.source_path]
  else if artifact.chunk_dir then [str "-zip-path", artifact.source_path]
  else [str "-file-path", artifact.source_path]

/-- A variation carries exactly one of the three upload-mode flags. -/
def singleFlag (a : ArtifactConfig) : Prop :=
  (a.standard ∧ ¬a.chunk ∧ ¬a.chunk_dir) ∨
  (¬a.standard ∧ a.chunk ∧ ¬a.chunk_dir) ∨
  (¬a.standard ∧ ¬a.chunk ∧ a.chunk_dir)

/-- C2: for every `ArtifactConfig` and matched file path, variation
expansion produces exactly one single-flag variation per true flag among
`standard`, `chunk`, `chunk_dir` (hence no variation when all three are
false); the `chunk` variation has `unzip` forced to false, the `chunk_dir`
variation has `unzip` forced to true, the `standard` variation keeps the
config's `unzip`, and every variation carries the config's
`exclude_filters`. -/
theorem variation_expansion_correct (path : Str) (a : ArtifactConfig) :
    ((artifactVariations path a).countP (fun v => v.standard) =
      if a.standard then 1 else 0)
    ∧ ((artifactVariations path a).countP (fun v => v.chunk) =
      if a.chunk then 1 else 0)
    ∧ ((artifactVariations path a).countP (fun v => v.chunk_dir) =
      if a.chunk_dir then 1 else 0)
    ∧ (a.standard = false → a.chunk = false → a.chunk_dir = false →
      artifactVariations path a = [])
    ∧ ∀ v ∈ artifactVariations path a,
        singleFlag v
        ∧ (v.standard = true → v.unzip = a.unzip)
        ∧ (v.chunk = true → v.unzip = false)
        ∧ (v.chunk_dir = true → v.unzip = true)
        ∧ v.exclude_filters = a.exclude_filters := by
  obtain ⟨sp, uz, st, ch, cd, ex⟩ := a
  cases st <;> cases ch <;> cases cd <;>
    simp [artifactVariations, singleFlag, List.countP_cons]

/-- Witness for C2 at a concrete all-flags-false config. -/
theorem variation_expansion_correct_witness :
    artifactVariations (str "p")
      { source_path := str "s", unzip := true, standard := false,
        chunk := false, chunk_dir := false, exclude_filters := [] } = [] :=
  (variation_expansion_correct (str "p") _).2.2.2.1 rfl rfl rfl

/-- C3 counterexample: in the degenerate case where none of `standard`,
`chunk`, `chunk_dir` is true, `Uploader._path_flag_for_artifact` emits
`-file-path` with the source path, not `-dir-path` with a scratch copy as
the claim states. -/
theorem path_flag_degenerate_counterexample :
    pathFlagForArtifact
      { source_path := str "x", unzip := false, standard := false,
        chunk := false, chunk_dir := false, exclude_filters := [] }
      = [str "-file-path", str "x"]
    ∧ ¬ ((pathFlagForArtifact
      { source_path := str "x", unzip := false, standard := false,
        chunk := false, chunk_dir := false, exclude_filters := [] }).head?
      = some (str "-dir-path")) := by
  constructor
  · rfl
  · decide

/-- C3 amended: the path flag is `-zip-path` for a standard variation with
`unzip` true or a `chunk_dir` variation, `-file-path` for a standard
variation with `unzip` false or a `chunk` variation, and also `-file-path`
(not `-dir-path` with a scratch copy) in the degenerate case where none of
the three flags is true. -/
theorem path_flag_cases (a : ArtifactConfig) :
    (a.standard = true → a.unzip = true →
      pathFlagForArtifact a = [str "-zip-path", a.source_path])
    ∧ (a.standard = true → a.unzip = false →
      pathFlagForArtifact a = [str "-file-path", a.source_path])
    ∧ (a.standard = false → a.chunk = true →
      pathFlagForArtifact a = [str "-file-path", a.source_path])
    ∧ (a.standard = false → a.chunk = false → a.chunk_dir = true →
      pathFlagForArtifact a = [str "-zip-path", a.source_path])
    ∧ (a.standard = false → a.chunk = false → a.chunk_dir = false →
      pathFlagForArtifact a = [str "-file-path", a.source_path]) := by
  obtain ⟨sp, uz, st, ch, cd, ex⟩ := a
  cases st <;> cases uz <;> cases ch <;> cases cd <;>
    simp [pathFlagForArtifact]

/-- Witness for C3 amended at a concrete `chunk_dir` variation. -/
theorem path_flag_cases_witness :
    pathFlagForArtifact
      { source_path := str "x", unzip := true, standard := false,
        chunk := false, chunk_dir := true, exclude_filters := [] }
      = [str "-zip-path", str "x"] :=
  (path_flag_cases _).2.2.2.1 rfl rfl rfl

/-! ## Python string helpers used by `artifact_manager.py` -/

/-- Splits a string at the first occurrence of `c`, returning the parts
before and after it, or `none` when `c` does not occur. -/
def splitFirst (c : Char) : Str → Option (Str × Str)
  | [] => none
  | a :: rest =>
    if a = c then some ([], rest)
    else
      match splitFirst c rest with
      | none => none
      | some (x, y) => some (a :: x, y)

/-- Python `s.split('=', maxsplit=1)`. -/
def pySplitEqOnce (s : Str) : List Str :=
  match splitFirst '=' s with
  | none => [s]
  | some (a, b) => [a, b]

/-- Python `s.split()` with no argument: split on whitespace runs,
dropping empty pieces. -/
def pySplitWs (s : Str) : List Str :=
  (s.splitOnP (fun c => c.isWhitespace)).filter (· ≠ [])

/-- Python `s.lower()`, modelled for the ASCII values the attribute
parser compares against. -/
def pyLower (s : Str) : Str := s.map Char.toLower

/-- `ArtifactManager._get_artifact_attribute`: retrieves a boolean
attribute from the attribute tokens of an override string; a bare
`ATTRIBUTE_NAME` token is treated as `ATTRIBUTE_NAME=True`. -/
def getArtifactAttribute (tokens : List Str) (attribute_name : Str)
    (default : Bool) : Bool :=
  match tokens with
  | [] => default
  | token :: rest =>
    if (attribute_name ++ ['=']).isPrefixOf token then
      let attr_token := pyLower ((pySplitEqOnce token).getD 1 [])
      if attr_token ∈ [str "true", str "t", str "1"] then true
      else if attr_token ∈ [str "false", str "f", str "0"] then false
      else default
    else if token = attribute_name then true
    else getArtifactAttribute rest attribute_name default

/-- Splitting at the first `c` of `a ++ c :: b` where `a` is `c`-free
recovers `a` and `b`. -/
theorem splitFirst_append (c : Char) (a b : Str) (h : c ∉ a) :
    splitFirst c (a ++ c :: b) = some (a, b) := by
  induction a with
  | nil => simp [splitFirst]
  | cons x xs ih =>
    simp only [List.mem_cons, not_or] at h
    have hx : ¬ (x = c) := fun hxc => h.1 hxc.symm
    simp [splitFirst, hx, ih h.2]

/-- `a ++ "="` is never a prefix of `a` itself (it is longer). -/
theorem append_eq_not_isPrefixOf (a : Str) :
    ¬ ((a ++ ['=']).isPrefixOf a = true) := by
  rw [List.isPrefixOf_iff_prefix]
  intro h
  have := h.length_le
  simp at this

/-- C7: for each of the four boolean attributes, a bare token equal to the
attribute name sets it to true; `ATTR=VALUE` sets it to true when VALUE
compares case-insensitively to one of `true`, `t`, `1`, to false for one
of `false`, `f`, `0`, and for any other VALUE the attribute keeps its
current value. -/
theorem attribute_token_parsing (attr value : Str) (d : Bool)
    (hattr : attr ∈ [str "unzip", str "standard", str "chunk",
      str "chunk_dir"]) :
    getArtifactAttribute [attr] attr d = true
    ∧ (pyLower value ∈ [str "true", str "t", str "1"] →
        getArtifactAttribute [attr ++ '=' :: value] attr d = true)
    ∧ (pyLower value ∈ [str "false", str "f", str "0"] →
        getArtifactAttribute [attr ++ '=' :: value] attr d = false)
    ∧ (pyLower value ∉ [str "true", str "t", str "1"] →
        pyLower value ∉ [str "false", str "f", str "0"] →
        getArtifactAttribute [attr ++ '=' :: value] attr d = d) := by
  have heq : '=' ∉ attr := by
    simp only [List.mem_cons, List.not_mem_nil, or_false] at hattr
    rcases hattr with h | h | h | h <;> (rw [h]; decide)
  have hpre : ((attr ++ ['=']).isPrefixOf (attr ++ '=' :: value)) = true := by
    rw [List.isPrefixOf_iff_prefix]
    exact ⟨value, by simp⟩
  have hsplit : pySplitEqOnce (attr ++ '=' :: value) = [attr, value] := by
    unfold pySplitEqOnce
    rw [splitFirst_append _ _ _ heq]
  have hdisj : pyLower value ∈ [str "false", str "f", str "0"] →
      pyLower value ∉ [str "true", str "t", str "1"] := by
    intro h1 h2
    simp only [List.mem_cons, List.not_mem_nil, or_false] at h1 h2
    rcases h1 with h1 | h1 | h1 <;> rcases h2 with h2 | h2 | h2 <;>
      (rw [h1] at h2; exact absurd h2 (by decide))
  refine ⟨?_, ?_, ?_, ?_⟩
  · simp [getArtifactAttribute, append_eq_not_isPrefixOf attr]
  · intro hmem
    simp [getArtifactAttribute, hpre, hsplit, hmem]
  · intro hmem
    simp [getArtifactAttribute, hpre, hsplit, hmem, hdisj hmem]
  · intro hm1 hm2
    simp [getArtifactAttribute, hpre, hsplit, hm1, hm2]

/-- Witness for C7 at the four concrete attributes. -/
theorem attribute_token_parsing_witness :
    getArtifactAttribute [str "unzip"] (str "unzip") false = true
    ∧ getArtifactAttribute [str "chunk" ++ '=' :: str "T"]
        (str "chunk") false = true
    ∧ getArtifactAttribute [str "standard" ++ '=' :: str "0"]
        (str "standard") true = false
    ∧ getArtifactAttribute [str "chunk_dir" ++ '=' :: str "yes"]
        (str "chunk_dir") true = true :=
  ⟨(attribute_token_parsing (str "unzip") (str "x") false (by decide)).1,
   ((attribute_token_parsing (str "chunk") (str "T") false
      (by decide)).2.1) (by decide),
   ((attribute_token_parsing (str "standard") (str "0") true
      (by decide)).2.2.1) (by decide),
   ((attribute_token_parsing (str "chunk_dir") (str "yes") true
      (by decide)).2.2.2) (by decide) (by decide)⟩

/-! ## ArtifactManager (`artifact_manager.py`)

Python object identity matters for the aliasing claims, so the manager is
modelled with an explicit heap: `ArtifactConfig` objects live in a list of
cells and dictionaries map names to cell indices.  `dict.copy()` copies
the name-to-reference pairs but shares the referenced objects, exactly as
in Python. -/

/-- Placeholder used by total heap reads; never observed for in-range
references. -/
def dummyCfg : ArtifactConfig :=
  { source_path := [], unzip := false, standard := true, chunk := false,
    chunk_dir := false, exclude_filters := [] }

/-- State of an `ArtifactManager` together with the caller's original
dictionary: `heap` holds the `ArtifactConfig` objects, `callerPairs` is
the caller's preset dict and `mgrPairs` the manager's `self._artifacts`,
both mapping names to heap references. -/
structure ManagerState where
  heap : List ArtifactConfig
  callerPairs : List (Str × Nat)
  mgrPairs : List (Str × Nat)
  deriving Repr, DecidableEq

/-- `ArtifactManager.__init__`: stores `artifacts.copy()` — a fresh pair
list sharing the referenced objects. -/
def managerInit (heap : List ArtifactConfig)
    (caller : List (Str × Nat)) : ManagerState :=
  { heap := heap, callerPairs := caller, mgrPairs := caller }

/-- Python `d[k] = v` on a dict: rebinds an existing key in place,
otherwise appends the new binding. -/
def dictSet {β : Type} (d : List (Str × β)) (k : Str) (v : β) :
    List (Str × β) :=
  if d.any (fun p => p.1 = k) then
    d.map (fun p => if p.1 = k then (k, v) else p)
  else d ++ [(k, v)]

/-- `ArtifactManager._delete_artifact`: removes the binding when the name
exists, otherwise leaves the mapping unchanged. -/
def deleteArtifact (st : ManagerState) (name : Str) : ManagerState :=
  if (st.mgrPairs.lookup name).isSome then
    { st with mgrPairs := st.mgrPairs.filter (fun p => ¬ (p.1 = name)) }
  else st

/-- The in-place field updates `_update_or_create_artifact` performs on an
`ArtifactConfig` object: `source_path` is always rewritten, and when
attribute tokens are present each boolean attribute is re-read from them
with its current value as the default. -/
def applyOverrideTokens (tokens : List Str) (a : ArtifactConfig) :
    ArtifactConfig :=
  let a := { a with source_path := tokens.headD [] }
  if tokens.length > 1 then
    { a with
      unzip := getArtifactAttribute (tokens.drop 1) (str "unzip") a.unzip,
      standard :=
        getArtifactAttribute (tokens.drop 1) (str "standard") a.standard,
      chunk := getArtifactAttribute (tokens.drop 1) (str "chunk") a.chunk,
      chunk_dir :=
        getArtifactAttribute (tokens.drop 1) (str "chunk_dir") a.chunk_dir }
  else a

/-- `ArtifactManager._update_or_create_artifact`: when the name is bound,
the shared heap object is mutated in place and the name rebound to the
same reference; otherwise a fresh object (defaults `unzip=False`,
`standard=True`, `chunk=False`, `chunk_dir=False`) is allocated and bound.
(Python evaluates and discards `dict.get`'s default allocation in the
bound case; the discarded unreachable cell is omitted here.  Python would
raise `IndexError` on an all-whitespace `source_path_str`; `tokens.headD`
totalises that unreachable case.) -/
def updateOrCreateArtifact (st : ManagerState) (name source_path_str : Str) :
    ManagerState :=
  let tokens := pySplitWs source_path_str
  match st.mgrPairs.lookup name with
  | some r =>
    let artifact := applyOverrideTokens tokens (st.heap.getD r dummyCfg)
    { st with heap := st.heap.set r artifact,
              mgrPairs := dictSet st.mgrPairs name r }
  | none =>
    let artifact := applyOverrideTokens tokens
      { source_path := tokens.headD [], unzip := false, standard := true,
        chunk := false, chunk_dir := false, exclude_filters := [] }
    { st with heap := st.heap ++ [artifact],
              mgrPairs := dictSet st.mgrPairs name st.heap.length }

/-- `ArtifactManager._process_artifact_override`: splits on the first
`=`; malformed strings are ignored, an empty value deletes, otherwise the
artifact is updated or created. -/
def processArtifactOverride (st : ManagerState) (override : Str) :
    ManagerState :=
  match splitFirst '=' override with
  | none => st
  | some (name, source_path_str) =>
    if source_path_str = [] then deleteArtifact st name
    else updateOrCreateArtifact st name source_path_str

/-- `ArtifactManager.override_artifacts`: applies each override string in
order. -/
def overrideArtifacts (st : ManagerState) (overrides : List Str) :
    ManagerState :=
  overrides.foldl processArtifactOverride st

/-- The caller-visible contents of a dictionary: each name paired with the
object its reference denotes. -/
def derefDict (heap : List ArtifactConfig) (pairs : List (Str × Nat)) :
    List (Str × ArtifactConfig) :=
  pairs.map (fun p => (p.1, heap.getD p.2 dummyCfg))

/-- Reading any other index is unaffected by `List.set`. -/
theorem getD_set_ne {α : Type} (l : List α) (r i : Nat) (a d : α)
    (h : i ≠ r) : (l.set r a).getD i d = l.getD i d := by
  induction l generalizing r i with
  | nil => rfl
  | cons x xs ih =>
    cases r with
    | zero =>
      cases i with
      | zero => exact absurd rfl h
      | succ j => simp [List.getD_cons_succ]
    | succ r' =>
      cases i with
      | zero => simp [List.getD_cons_zero]
      | succ j =>
        simp only [List.set_cons_succ, List.getD_cons_succ]
        exact ih r' j (fun hj => h (by rw [hj]))

/-- Reading the written index after `List.set` yields the new value. -/
theorem getD_set_self {α : Type} (l : List α) (r : Nat) (a d : α)
    (h : r < l.length) : (l.set r a).getD r d = a := by
  induction l generalizing r with
  | nil => simp at h
  | cons x xs ih =>
    cases r with
    | zero => rfl
    | succ r' =>
      simp only [List.set_cons_succ, List.getD_cons_succ]
      exact ih r' (by simpa using h)

/-- Reading the appended cell of `l ++ [a]` at index `l.length`. -/
theorem getD_append_length {α : Type} (l : List α) (a d : α) :
    (l ++ [a]).getD l.length d = a := by
  induction l with
  | nil => rfl
  | cons x xs ih =>
    simp [List.getD_cons_succ, ih]

/-- `_delete_artifact` never touches the heap or the caller's dict. -/
theorem deleteArtifact_frame (st : ManagerState) (name : Str) :
    (deleteArtifact st name).heap = st.heap
    ∧ (deleteArtifact st name).callerPairs = st.callerPairs := by
  unfold deleteArtifact
  split <;> exact ⟨rfl, rfl⟩

/-- `_update_or_create_artifact` never touches the caller's dict
structure. -/
theorem updateOrCreateArtifact_callerPairs (st : ManagerState)
    (name sps : Str) :
    (updateOrCreateArtifact st name sps).callerPairs = st.callerPairs := by
  unfold updateOrCreateArtifact
  cases st.mgrPairs.lookup name <;> rfl

/-- Concrete preset heap for the C5 counterexample. -/
def cexHeap : List ArtifactConfig :=
  [{ source_path := str "*.apex", unzip := false, standard := true,
     chunk := false, chunk_dir := false, exclude_filters := [] }]

/-- Concrete caller dictionary for the C5 counterexample. -/
def cexCaller : List (Str × Nat) := [(str "apex", 0)]

/-- C5 counterexample: after `override_artifacts` applies `"apex=new"`,
the caller's original mapping still holds the same name-to-object
references, yet the `ArtifactConfig` object it contains has been mutated
in place (its `source_path` is now `"new"`), so the caller-visible
contents of the original mapping changed. -/
theorem manager_mutation_counterexample :
    (overrideArtifacts (managerInit cexHeap cexCaller)
        [str "apex=new"]).callerPairs = cexCaller
    ∧ derefDict
        (overrideArtifacts (managerInit cexHeap cexCaller)
          [str "apex=new"]).heap cexCaller
      ≠ derefDict cexHeap cexCaller := by
  constructor
  · rfl
  · decide

/-- C5 amended: the dict structure of the caller's mapping is never
mutated (no key is added, removed or rebound by the manager) and deletes
and creations leave every pre-existing `ArtifactConfig` object intact,
but an override of an existing name mutates the shared object in place —
the initial copy is shallow — and that mutation is visible through the
caller's mapping. -/
theorem manager_shallow_copy_semantics (st : ManagerState)
    (ov name sps : Str) :
    ((managerInit st.heap st.callerPairs).mgrPairs = st.callerPairs)
    ∧ ((processArtifactOverride st ov).callerPairs = st.callerPairs)
    ∧ ((deleteArtifact st name).heap = st.heap)
    ∧ (st.mgrPairs.lookup name = none →
        (updateOrCreateArtifact st name sps).heap.take st.heap.length
          = st.heap)
    ∧ (∀ r i, st.mgrPairs.lookup name = some r → i ≠ r →
        (updateOrCreateArtifact st name sps).heap.getD i dummyCfg
          = st.heap.getD i dummyCfg)
    ∧ (∀ r, st.mgrPairs.lookup name = some r → r < st.heap.length →
        (updateOrCreateArtifact st name sps).heap.getD r dummyCfg
          = applyOverrideTokens (pySplitWs sps)
              (st.heap.getD r dummyCfg)) := by
  refine ⟨rfl, ?_, (deleteArtifact_frame st name).1, ?_, ?_, ?_⟩
  · unfold processArtifactOverride
    cases splitFirst '=' ov with
    | none => rfl
    | some p =>
      dsimp only
      split
      · exact (deleteArtifact_frame st _).2
      · exact updateOrCreateArtifact_callerPairs st _ _
  · intro hnone
    unfold updateOrCreateArtifact
    rw [hnone]
    simp [List.take_left]
  · intro r i hsome hne
    unfold updateOrCreateArtifact
    rw [hsome]
    exact getD_set_ne _ _ _ _ _ hne
  · intro r hsome hlt
    unfold updateOrCreateArtifact
    rw [hsome]
    exact getD_set_self _ _ _ _ hlt

/-- Witness for C5 amended at a concrete one-entry manager state. -/
theorem manager_shallow_copy_semantics_witness :
    (updateOrCreateArtifact (managerInit cexHeap cexCaller)
        (str "apex") (str "new")).heap.getD 0 dummyCfg
      = applyOverrideTokens (pySplitWs (str "new"))
          ((managerInit cexHeap cexCaller).heap.getD 0 dummyCfg) :=
  (manager_shallow_copy_semantics (managerInit cexHeap cexCaller)
      (str "x") (str "apex") (str "new")).2.2.2.2.2 0 (by decide) (by decide)

/-- C10: an override `NAME=PATH` for a name not in the mapping creates a
config with `standard=true`, `chunk=false`, `chunk_dir=false` and
`unzip=false`; such a config expands into exactly the one standard
variation per matched file, whose manifest key is the unprefixed relative
path. -/
theorem new_artifact_defaults (st : ManagerState) (name sps p rel : Str)
    (hnone : st.mgrPairs.lookup name = none)
    (htok : pySplitWs sps = [p]) :
    ((updateOrCreateArtifact st name sps).heap.getD st.heap.length dummyCfg
      = { source_path := p, unzip := false, standard := true,
          chunk := false, chunk_dir := false, exclude_filters := [] })
    ∧ (artifactVariations rel
        ((updateOrCreateArtifact st name sps).heap.getD
          st.heap.length dummyCfg)
      = [{ source_path := rel, unzip := false, standard := true,
           chunk := false, chunk_dir := false, exclude_filters := [] }])
    ∧ (∀ v ∈ artifactVariations rel
        ((updateOrCreateArtifact st name sps).heap.getD
          st.heap.length dummyCfg),
        artifactPath rel v = rel) := by
  have hcfg : (updateOrCreateArtifact st name sps).heap.getD
      st.heap.length dummyCfg
      = { source_path := p, unzip := false, standard := true,
          chunk := false, chunk_dir := false, exclude_filters := [] } := by
    unfold updateOrCreateArtifact
    rw [hnone]
    dsimp only
    rw [htok]
    simp [applyOverrideTokens, getD_append_length]
  refine ⟨hcfg, ?_, ?_⟩
  · rw [hcfg]
    simp [artifactVariations]
  · rw [hcfg]
    intro v hv
    simp [artifactVariations] at hv
    rw [hv]
    simp [artifactPath]

/-- Witness for C10 at a concrete empty manager state. -/
theorem new_artifact_defaults_witness :
    (updateOrCreateArtifact (managerInit [] []) (str "n")
        (str "path")).heap.getD 0 dummyCfg
      = { source_path := str "path", unzip := false, standard := true,
          chunk := false, chunk_dir := false, exclude_filters := [] } :=
  (new_artifact_defaults (managerInit [] []) (str "n") (str "path")
      (str "path") (str "rel") (by decide) (by decide)).1

/-! ## Task resolution (`Uploader.create_upload_tasks`)

Filesystem- and stdlib-dependent steps are parametrised by a `ResolveEnv`
oracle: `glob` stands for `glob.glob(pattern, recursive)`, `isdir` for
`os.path.isdir`, and `relpathRes path start` for `os.path.relpath(path,
start)` with `none` marking a raised `ValueError`.  All control flow is
translated from the source. -/

/-- Oracle for the filesystem-dependent steps of task resolution. -/
structure ResolveEnv where
  glob : Str → Bool → List Str
  isdir : Str → Bool
  relpathRes : Str → Str → Option Str

/-- `os.path.basename`: the part of the path after the last `/`. -/
def pyBasename (p : Str) : Str := (p.splitOn '/').getLastD []

/-- `Uploader._get_relative_path`: the path relative to `dir`, falling
back to the basename when `os.path.relpath` raises. -/
def getRelativePath (env : ResolveEnv) (dir path : Str) : Str :=
  match env.relpathRes path dir with
  | some r => r
  | none => pyBasename path

/-- `Uploader._glob_wrapper`: a `source_path` starting with `./` is
globbed non-recursively at `dist_dir + source_path[1:]`; any other
pattern is globbed recursively as `dist_dir + '/**/' + source_path`. -/
def globWrapper (env : ResolveEnv) (dist_dir : Str)
    (artifact : ArtifactConfig) : List Str × ArtifactConfig :=
  if (str "./").isPrefixOf artifact.source_path then
    (env.glob (dist_dir ++ artifact.source_path.drop 1) false, artifact)
  else
    (env.glob (dist_dir ++ str "/**/" ++ artifact.source_path) true,
     artifact)

/-- `UploadTask` from `uploader.py`. -/
structure UTask where
  artifact : ArtifactConfig
  path : Str
  working_dir : Str
  metrics_file : Str
  deriving Repr, DecidableEq

/-- Decimal rendering of a number, for generated temp-file names and the
dry-run total line. -/
def natStr (n : Nat) : Str := (toString n).data

/-- Name of the `n`-th `tempfile.mkstemp` scratch file in `working_dir`
(the unpredictable suffix is modelled by an allocation counter). -/
def metricsPath (working_dir : Str) (n : Nat) : Str :=
  working_dir ++ str "/tmp" ++ natStr n

/-- Observable side effects of the uploader, recorded as a trace. -/
inductive Effect where
  | mkstemp (dir : Str)
  | printOut (line : Str)
  | subprocessRun (cmd : List Str)
  | writeFile (path : Str)
  | removeFile (path : Str)
  deriving Repr, DecidableEq

/-- Mutable state of the `create_upload_tasks` loops: accumulated tasks,
the `skip_files` dedup list, the effect trace, and the temp-file
allocation counter. -/
@[ext]
structure RState where
  tasks : List UTask
  skip : List Str
  effects : List Effect
  ctr : Nat
  deriving Repr, DecidableEq

/-- Inner loop of `create_upload_tasks` over `_artifact_variations`: keys
already in `skip_files` are dropped, otherwise the key is recorded, the
variation's `source_path` is rewritten to the matched file, a metrics
temp file is created and the task is appended. -/
def procVariations (wd file rel : Str) :
    List ArtifactConfig → RState → RState
  | [], st => st
  | v :: rest, st =>
    let path := artifactPath rel v
    if path ∈ st.skip then procVariations wd file rel rest st
    else
      procVariations wd file rel rest
        { tasks := st.tasks ++
            [{ artifact := { v with source_path := file }, path := path,
               working_dir := wd, metrics_file := metricsPath wd st.ctr }],
          skip := st.skip ++ [path],
          effects := st.effects ++ [Effect.mkstemp wd],
          ctr := st.ctr + 1 }

/-- Middle loop of `create_upload_tasks` over the glob matches of one
config: directory matches are skipped, other matches are expanded into
variations keyed by their relative path. -/
def procFiles (env : ResolveEnv) (dist wd : Str)
    (artifact : ArtifactConfig) : List Str → RState → RState
  | [], st => st
  | file :: rest, st =>
    if env.isdir file then procFiles env dist wd artifact rest st
    else
      let rel := getRelativePath env dist file
      procFiles env dist wd artifact rest
        (procVariations wd file rel (artifactVariations rel artifact) st)

/-- Outer loop of `create_upload_tasks` over the configs, in input order
(the glob pool's `executor.map` preserves order). -/
def procConfigs (env : ResolveEnv) (dist wd : Str) :
    List ArtifactConfig → RState → RState
  | [], st => st
  | a :: rest, st =>
    let res := globWrapper env dist a
    procConfigs env dist wd rest (procFiles env dist wd res.2 res.1 st)

/-- `Uploader.create_upload_tasks`: the upload tasks for the artifacts,
together with the trace of temp files created while resolving. -/
def createUploadTasks (env : ResolveEnv) (artifacts : List ArtifactConfig)
    (working_dir dist_dir : Str) : List UTask × List Effect :=
  let st := procConfigs env dist_dir working_dir artifacts
    { tasks := [], skip := [], effects := [], ctr := 0 }
  (st.tasks, st.effects)

/-! ### Specification-side view of resolution, for stating C1 -/

/-- The `(manifest key, resolved variation)` pairs one glob match of one
config contributes, in evaluation order, before deduplication. -/
def variationEntries (env : ResolveEnv) (dist file : Str)
    (a : ArtifactConfig) : List (Str × ArtifactConfig) :=
  (artifactVariations (getRelativePath env dist file) a).map
    (fun v => (artifactPath (getRelativePath env dist file) v,
      { v with source_path := file }))

/-- The entries contributed by the glob matches of one config, with
directory matches discarded. -/
def fileEntries (env : ResolveEnv) (dist : Str) (a : ArtifactConfig)
    (files : List Str) : List (Str × ArtifactConfig) :=
  files.flatMap (fun f =>
    if env.isdir f then [] else variationEntries env dist f a)

/-- The full resolution stream of all configs, in evaluation order,
before deduplication. -/
def resolutionEntries (env : ResolveEnv) (dist : Str)
    (artifacts : List ArtifactConfig) : List (Str × ArtifactConfig) :=
  artifacts.flatMap (fun a =>
    fileEntries env dist a (globWrapper env dist a).1)

/-- Keeps the first entry for each key not yet in `seen`, dropping later
duplicates — the effect of the `skip_files` check. -/
def dedupFirst (seen : List Str) :
    List (Str × ArtifactConfig) → List (Str × ArtifactConfig)
  | [] => []
  | e :: es =>
    if e.1 ∈ seen then dedupFirst seen es
    else e :: dedupFirst (seen ++ [e.1]) es

/-- Builds the task records for a deduplicated entry list, numbering the
metrics temp files from `c`. -/
def mkTasksFrom (wd : Str) : Nat → List (Str × ArtifactConfig) → List UTask
  | _, [] => []
  | c, e :: es =>
    { artifact := e.2, path := e.1, working_dir := wd,
      metrics_file := metricsPath wd c } :: mkTasksFrom wd (c + 1) es

/-- `dedupFirst` distributes over append, threading the seen keys. -/
theorem dedupFirst_append (seen : List Str)
    (xs ys : List (Str × ArtifactConfig)) :
    dedupFirst seen (xs ++ ys) =
      dedupFirst seen xs ++
        dedupFirst (seen ++ (dedupFirst seen xs).map Prod.fst) ys := by
  induction xs generalizing seen with
  | nil => simp [dedupFirst]
  | cons e es ih =>
    by_cases h : e.1 ∈ seen
    · simp [dedupFirst, h, ih]
    · simp only [List.cons_append, dedupFirst, h, if_neg, ite_false,
        List.map_cons, List.append_eq]
      rw [ih]
      simp [List.append_assoc]

/-- `mkTasksFrom` distributes over append, threading the counter. -/
theorem mkTasksFrom_append (wd : Str) (c : Nat)
    (xs ys : List (Str × ArtifactConfig)) :
    mkTasksFrom wd c (xs ++ ys) =
      mkTasksFrom wd c xs ++ mkTasksFrom wd (c + xs.length) ys := by
  induction xs generalizing c with
  | nil => simp [mkTasksFrom]
  | cons e es ih =>
    simp [mkTasksFrom, ih, Nat.add_assoc, Nat.add_comm 1 es.length]

/-- The variation loop equals appending the deduplicated entries of its
variation list. -/
theorem procVariations_spec (wd file rel : Str)
    (vars : List ArtifactConfig) (st : RState) :
    procVariations wd file rel vars st =
      { tasks := st.tasks ++ mkTasksFrom wd st.ctr
          (dedupFirst st.skip (vars.map (fun v =>
            (artifactPath rel v, { v with source_path := file })))),
        skip := st.skip ++ (dedupFirst st.skip (vars.map (fun v =>
            (artifactPath rel v, { v with source_path := file })))).map
              Prod.fst,
        effects := st.effects ++ List.replicate
          (dedupFirst st.skip (vars.map (fun v =>
            (artifactPath rel v, { v with source_path := file })))).length
          (Effect.mkstemp wd),
        ctr := st.ctr + (dedupFirst st.skip (vars.map (fun v =>
          (artifactPath rel v, { v with source_path := file })))).length } := by
  induction vars generalizing st with
  | nil => simp [procVariations, dedupFirst, mkTasksFrom]
  | cons v rest ih =>
    simp only [procVariations, List.map_cons]
    by_cases h : artifactPath rel v ∈ st.skip
    · rw [if_pos h, ih]
      simp [dedupFirst, h]
    · rw [if_neg h, ih]
      simp only [dedupFirst, h, ite_false, if_neg, List.map_cons,
        mkTasksFrom, List.length_cons, List.replicate_succ]
      refine RState.ext ?_ ?_ ?_ ?_
      · dsimp only
        simp [List.append_assoc]
      · dsimp only
        simp [List.append_assoc]
      · dsimp only
        simp [List.append_assoc]
      · dsimp only
        omega

/-- The per-config file loop equals appending the deduplicated
`fileEntries` of its match list. -/
theorem procFiles_spec (env : ResolveEnv) (dist wd : Str)
    (a : ArtifactConfig) (files : List Str) (st : RState) :
    procFiles env dist wd a files st =
      { tasks := st.tasks ++ mkTasksFrom wd st.ctr
          (dedupFirst st.skip (fileEntries env dist a files)),
        skip := st.skip ++
          (dedupFirst st.skip (fileEntries env dist a files)).map Prod.fst,
        effects := st.effects ++ List.replicate
          (dedupFirst st.skip (fileEntries env dist a files)).length
          (Effect.mkstemp wd),
        ctr := st.ctr +
          (dedupFirst st.skip (fileEntries env dist a files)).length } := by
  induction files generalizing st with
  | nil => simp [procFiles, fileEntries, dedupFirst, mkTasksFrom]
  | cons f rest ih =>
    have hsplit : fileEntries env dist a (f :: rest) =
        (if env.isdir f then [] else variationEntries env dist f a) ++
          fileEntries env dist a rest := by
      simp [fileEntries]
    simp only [procFiles]
    by_cases h : env.isdir f
    · rw [if_pos h, ih]
      rw [hsplit, if_pos h, List.nil_append]
    · rw [if_neg h, procVariations_spec, ih]
      rw [hsplit, if_neg h, dedupFirst_append]
      have hvar : (artifactVariations (getRelativePath env dist f) a).map
          (fun v => (artifactPath (getRelativePath env dist f) v,
            { v with source_path := f })) = variationEntries env dist f a :=
        rfl
      refine RState.ext ?_ ?_ ?_ ?_
      · dsimp only
        rw [hvar, mkTasksFrom_append]
        simp [List.append_assoc]
      · dsimp only
        rw [hvar]
        simp [List.append_assoc]
      · dsimp only
        rw [hvar]
        rw [List.length_append, List.replicate_add, List.append_assoc]
      · dsimp only
        rw [hvar]
        simp [List.length_append, Nat.add_assoc]

/-- `_glob_wrapper` returns its artifact unchanged. -/
theorem globWrapper_snd (env : ResolveEnv) (dist : Str)
    (a : ArtifactConfig) : (globWrapper env dist a).2 = a := by
  unfold globWrapper
  split <;> rfl

/-- The outer config loop equals appending the deduplicated
`resolutionEntries`. -/
theorem procConfigs_spec (env : ResolveEnv) (dist wd : Str)
    (artifacts : List ArtifactConfig) (st : RState) :
    procConfigs env dist wd artifacts st =
      { tasks := st.tasks ++ mkTasksFrom wd st.ctr
          (dedupFirst st.skip (resolutionEntries env dist artifacts)),
        skip := st.skip ++
          (dedupFirst st.skip
            (resolutionEntries env dist artifacts)).map Prod.fst,
        effects := st.effects ++ List.replicate
          (dedupFirst st.skip (resolutionEntries env dist artifacts)).length
          (Effect.mkstemp wd),
        ctr := st.ctr +
          (dedupFirst st.skip
            (resolutionEntries env dist artifacts)).length } := by
  induction artifacts generalizing st with
  | nil => simp [procConfigs, resolutionEntries, dedupFirst, mkTasksFrom]
  | cons a rest ih =>
    have hsplit : resolutionEntries env dist (a :: rest) =
        fileEntries env dist a (globWrapper env dist a).1 ++
          resolutionEntries env dist rest := by
      simp [resolutionEntries]
    simp only [procConfigs]
    rw [procFiles_spec, ih, globWrapper_snd, hsplit, dedupFirst_append]
    refine RState.ext ?_ ?_ ?_ ?_
    · dsimp only
      rw [mkTasksFrom_append]
      simp [resolutionEntries, List.append_assoc]
    · dsimp only
      simp [resolutionEntries, List.append_assoc]
    · dsimp only
      rw [List.length_append, List.replicate_add, List.append_assoc]
    · dsimp only
      simp [List.length_append, Nat.add_assoc]

/-- `create_upload_tasks` produces exactly the first-wins deduplication
of the resolution stream, one metrics temp file per surviving task. -/
theorem createUploadTasks_spec (env : ResolveEnv)
    (artifacts : List ArtifactConfig) (wd dist : Str) :
    (createUploadTasks env artifacts wd dist).1 =
      mkTasksFrom wd 0 (dedupFirst [] (resolutionEntries env dist artifacts))
    ∧ (createUploadTasks env artifacts wd dist).2 =
      List.replicate
        (dedupFirst [] (resolutionEntries env dist artifacts)).length
        (Effect.mkstemp wd) := by
  unfold createUploadTasks
  rw [procConfigs_spec]
  exact ⟨rfl, rfl⟩

/-- Entries surviving `dedupFirst` come from the original stream. -/
theorem dedupFirst_subset (seen : List Str)
    (es : List (Str × ArtifactConfig)) :
    ∀ e ∈ dedupFirst seen es, e ∈ es := by
  induction es generalizing seen with
  | nil => simp [dedupFirst]
  | cons x xs ih =>
    by_cases h : x.1 ∈ seen
    · simp only [dedupFirst, h, ite_true, if_pos]
      intro e he
      exact List.mem_cons_of_mem x (ih seen e he)
    · simp only [dedupFirst, h, ite_false, if_neg]
      intro e he
      rcases List.mem_cons.mp he with he | he
      · exact he ▸ List.mem_cons_self x xs
      · exact List.mem_cons_of_mem x (ih _ e he)

/-- Keys surviving `dedupFirst` were not among the seen keys. -/
theorem dedupFirst_key_not_seen (seen : List Str)
    (es : List (Str × ArtifactConfig)) :
    ∀ e ∈ dedupFirst seen es, e.1 ∉ seen := by
  induction es generalizing seen with
  | nil => simp [dedupFirst]
  | cons x xs ih =>
    by_cases h : x.1 ∈ seen
    · simp only [dedupFirst, h, ite_true, if_pos]
      exact ih seen
    · simp only [dedupFirst, h, ite_false, if_neg]
      intro e he
      rcases List.mem_cons.mp he with he | he
      · exact he ▸ h
      · intro hs
        exact ih _ e he (List.mem_append_left _ hs)

/-- The keys surviving `dedupFirst` are pairwise distinct. -/
theorem dedupFirst_keys_nodup (seen : List Str)
    (es : List (Str × ArtifactConfig)) :
    ((dedupFirst seen es).map Prod.fst).Nodup := by
  induction es generalizing seen with
  | nil => simp [dedupFirst]
  | cons x xs ih =>
    by_cases h : x.1 ∈ seen
    · simp only [dedupFirst, h, ite_true, if_pos]
      exact ih seen
    · simp only [dedupFirst, h, ite_false, if_neg, List.map_cons]
      refine List.nodup_cons.mpr ⟨?_, ih _⟩
      intro hmem
      rcases List.mem_map.mp hmem with ⟨e, he, hke⟩
      exact dedupFirst_key_not_seen _ _ e he
        (List.mem_append_right _ (hke ▸ List.mem_singleton.mpr rfl))

/-- First-wins: looking a key up in the deduplicated stream gives the
first binding of the original stream. -/
theorem dedupFirst_lookup (seen : List Str)
    (es : List (Str × ArtifactConfig)) (k : Str) (hk : k ∉ seen) :
    (dedupFirst seen es).lookup k = es.lookup k := by
  induction es generalizing seen with
  | nil => simp [dedupFirst]
  | cons x xs ih =>
    obtain ⟨xk, xa⟩ := x
    by_cases h : xk ∈ seen
    · have hne : (k == xk) = false := by
        refine beq_eq_false_iff_ne.mpr ?_
        intro hkx
        exact hk (hkx ▸ h)
      simp only [dedupFirst, h, ite_true, if_pos] at *
      rw [ih seen hk]
      simp [List.lookup, hne]
    · simp only [dedupFirst, h, ite_false, if_neg]
      by_cases hxk : (k == xk) = true
      · simp [List.lookup, hxk]
      · have hxk' : (k == xk) = false := by
          simpa using hxk
        simp only [List.lookup, hxk']
        refine ih _ ?_
        intro hmem
        rcases List.mem_append.mp hmem with hmem | hmem
        · exact hk hmem
        · have : k = xk := List.mem_singleton.mp hmem
          exact absurd (beq_iff_eq.mpr this) (by simp [hxk'])

/-- Projecting the built tasks back to `(key, artifact)` pairs recovers
the entry list. -/
theorem mkTasksFrom_proj (wd : Str) (c : Nat)
    (es : List (Str × ArtifactConfig)) :
    (mkTasksFrom wd c es).map (fun t => (t.path, t.artifact)) = es := by
  induction es generalizing c with
  | nil => rfl
  | cons e es ih => simp [mkTasksFrom, ih]

/-- The manifest keys of the built tasks are the entry keys. -/
theorem mkTasksFrom_paths (wd : Str) (c : Nat)
    (es : List (Str × ArtifactConfig)) :
    (mkTasksFrom wd c es).map (fun t => t.path) = es.map Prod.fst := by
  induction es generalizing c with
  | nil => rfl
  | cons e es ih => simp [mkTasksFrom, ih]

/-- Membership in the resolution stream, unfolded to its origin: a config,
a non-directory glob match, and a variation. -/
theorem mem_resolutionEntries (env : ResolveEnv) (dist : Str)
    (artifacts : List ArtifactConfig) (e : Str × ArtifactConfig) :
    e ∈ resolutionEntries env dist artifacts ↔
      ∃ a ∈ artifacts, ∃ f ∈ (globWrapper env dist a).1,
        env.isdir f = false ∧
        ∃ v ∈ artifactVariations (getRelativePath env dist f) a,
          e = (artifactPath (getRelativePath env dist f) v,
               { v with source_path := f }) := by
  simp only [resolutionEntries, List.mem_flatMap, fileEntries]
  constructor
  · rintro ⟨a, ha, f, hf, hin⟩
    by_cases hd : env.isdir f
    · rw [if_pos hd] at hin
      exact absurd hin (List.not_mem_nil e)
    · rw [if_neg hd] at hin
      rcases List.mem_map.mp hin with ⟨v, hv, hev⟩
      exact ⟨a, ha, f, hf, by simpa using hd, v, hv, hev.symm⟩
  · rintro ⟨a, ha, f, hf, hd, v, hv, hev⟩
    refine ⟨a, ha, f, hf, ?_⟩
    rw [if_neg (by simp [hd])]
    exact List.mem_map.mpr ⟨v, hv, hev.symm⟩

/-- Every produced task's `(key, artifact)` pair occurs in the resolution
stream. -/
theorem task_mem_entries (env : ResolveEnv)
    (artifacts : List ArtifactConfig) (wd dist : Str) :
    ∀ t ∈ (createUploadTasks env artifacts wd dist).1,
      (t.path, t.artifact) ∈ resolutionEntries env dist artifacts := by
  intro t ht
  rw [(createUploadTasks_spec env artifacts wd dist).1] at ht
  have hproj : (t.path, t.artifact) ∈
      (mkTasksFrom wd 0
        (dedupFirst [] (resolutionEntries env dist artifacts))).map
        (fun t => (t.path, t.artifact)) :=
    List.mem_map.mpr ⟨t, ht, rfl⟩
  rw [mkTasksFrom_proj] at hproj
  exact dedupFirst_subset _ _ _ hproj

/-- `_artifact_path`, written as the claim's prefix-plus-relative-path
formula. -/
theorem artifactPath_eq_formula (rel : Str) (v : ArtifactConfig) :
    artifactPath rel v =
      (if v.chunk then CHUNKED_ARTIFACT_NAME_PREFIX
       else if v.chunk_dir then CHUNKED_DIR_ARTIFACT_NAME_PREFIX
       else []) ++ rel := by
  unfold artifactPath
  by_cases hc : v.chunk <;> by_cases hd : v.chunk_dir <;> simp [hc, hd]

/-- C1: the task list has at most one task per manifest key; a task's key
is its file's path relative to the output directory prefixed with
`_chunked_` for a chunk variation, `_chunked_dir_` for a chunk_dir
variation, and unprefixed for standard; and when two entries of the
resolution stream derive the same key, the surviving task carries the
earliest entry's data — first writer wins, later duplicates are silently
dropped. -/
theorem task_list_dedup_first_wins (env : ResolveEnv)
    (artifacts : List ArtifactConfig) (wd dist : Str) :
    (((createUploadTasks env artifacts wd dist).1.map
        (fun t => t.path)).Nodup)
    ∧ (∀ k, ((createUploadTasks env artifacts wd dist).1.map
          (fun t => (t.path, t.artifact))).lookup k
        = (resolutionEntries env dist artifacts).lookup k)
    ∧ (∀ t ∈ (createUploadTasks env artifacts wd dist).1,
        ∃ a ∈ artifacts, ∃ f ∈ (globWrapper env dist a).1,
          ∃ v ∈ artifactVariations (getRelativePath env dist f) a,
            t.artifact = { v with source_path := f }
            ∧ t.path =
              (if v.chunk then CHUNKED_ARTIFACT_NAME_PREFIX
               else if v.chunk_dir then CHUNKED_DIR_ARTIFACT_NAME_PREFIX
               else []) ++ getRelativePath env dist f) := by
  refine ⟨?_, ?_, ?_⟩
  · rw [(createUploadTasks_spec env artifacts wd dist).1, mkTasksFrom_paths]
    exact dedupFirst_keys_nodup _ _
  · intro k
    rw [(createUploadTasks_spec env artifacts wd dist).1, mkTasksFrom_proj]
    exact dedupFirst_lookup [] _ k (List.not_mem_nil k)
  · intro t ht
    have hmem := task_mem_entries env artifacts wd dist t ht
    rcases (mem_resolutionEntries env dist artifacts _).mp hmem with
      ⟨a, ha, f, hf, _, v, hv, hev⟩
    refine ⟨a, ha, f, hf, v, hv, ?_, ?_⟩
    · exact congrArg Prod.snd hev
    · have hp : t.path = artifactPath (getRelativePath env dist f) v :=
        congrArg Prod.fst hev
      rw [hp, artifactPath_eq_formula]

/-- Concrete oracle for the C1 witness: one file matched by every glob. -/
def wEnv : ResolveEnv :=
  { glob := fun _ _ => [str "/d/a.zip"],
    isdir := fun _ => false,
    relpathRes := fun p _ => some (pyBasename p) }

/-- Concrete config for the C1 witness. -/
def wCfg : ArtifactConfig :=
  { source_path := str "a.zip", unzip := true, standard := true,
    chunk := true, chunk_dir := false, exclude_filters := [] }

/-- Witness for C1: the same config listed twice yields no duplicate
manifest keys. -/
theorem task_list_dedup_first_wins_witness :
    ((createUploadTasks wEnv [wCfg, wCfg] (str "/w") (str "/d")).1.map
      (fun t => t.path)).Nodup :=
  (task_list_dedup_first_wins wEnv [wCfg, wCfg] (str "/w") (str "/d")).1

/-- Concrete oracle for the C6 counterexample: one non-directory match
whose relative-path computation raises. -/
def failEnv : ResolveEnv :=
  { glob := fun _ _ => [str "/x/f.txt"],
    isdir := fun _ => false,
    relpathRes := fun _ _ => none }

/-- Concrete standard-only config for the C6 theorems. -/
def stdCfg : ArtifactConfig :=
  { source_path := str "f.txt", unzip := false, standard := true,
    chunk := false, chunk_dir := false, exclude_filters := [] }

/-- C6 counterexample: a glob match whose relative-path computation fails
is not skipped — `_get_relative_path` falls back to the basename and the
entry still produces an upload task (here keyed `f.txt`), contradicting
the claim that such an entry produces no upload task. -/
theorem relpath_failure_counterexample :
    failEnv.relpathRes (str "/x/f.txt") (str "/d") = none
    ∧ (createUploadTasks failEnv [stdCfg] (str "/w") (str "/d")).1.map
        (fun t => t.path) = [str "f.txt"]
    ∧ (createUploadTasks failEnv [stdCfg] (str "/w") (str "/d")).1 ≠ [] := by
  refine ⟨rfl, by decide, by decide⟩

/-- C6 amended: during task resolution, directory matches are skipped
after logging (a config all of whose matches are directories contributes
nothing, and the remaining configs are resolved unchanged); a match whose
relative-path computation fails is NOT skipped — its relative path falls
back to the file's basename and it still produces its upload task(s). -/
theorem resolution_skip_and_fallback (env : ResolveEnv) (dist wd f : Str)
    (a : ArtifactConfig) (artifacts : List ArtifactConfig) :
    (∀ t ∈ (createUploadTasks env artifacts wd dist).1,
        env.isdir t.artifact.source_path = false)
    ∧ ((∀ g ∈ (globWrapper env dist a).1, env.isdir g = true) →
        createUploadTasks env (a :: artifacts) wd dist
          = createUploadTasks env artifacts wd dist)
    ∧ (env.relpathRes f dist = none → env.isdir f = false →
        (globWrapper env dist a).1 = [f] → a.standard = true →
        a.chunk = false → a.chunk_dir = false →
        (createUploadTasks env [a] wd dist).1.map (fun t => t.path)
          = [pyBasename f]) := by
  refine ⟨?_, ?_, ?_⟩
  · intro t ht
    have hmem := task_mem_entries env artifacts wd dist t ht
    rcases (mem_resolutionEntries env dist artifacts _).mp hmem with
      ⟨a', _, f', _, hd, v, _, hev⟩
    have hsp : t.artifact.source_path = f' := by
      have h2 := congrArg Prod.snd hev
      simp only at h2
      rw [h2]
    rw [hsp]
    exact hd
  · intro hall
    have hfe : fileEntries env dist a (globWrapper env dist a).1 = [] := by
      refine List.flatMap_eq_nil_iff.mpr ?_
      intro g hg
      rw [if_pos (hall g hg)]
    have hentries : resolutionEntries env dist (a :: artifacts)
        = resolutionEntries env dist artifacts := by
      simp [resolutionEntries, hfe]
    unfold createUploadTasks
    rw [procConfigs_spec, procConfigs_spec, hentries]
  · intro hrp hdir hglob hstd hch hcd
    rw [(createUploadTasks_spec env [a] wd dist).1, mkTasksFrom_paths]
    have hrel : getRelativePath env dist f = pyBasename f := by
      unfold getRelativePath
      rw [hrp]
    have hentries : resolutionEntries env dist [a]
        = [(pyBasename f,
            { source_path := f, unzip := a.unzip, standard := true,
              chunk := false, chunk_dir := false,
              exclude_filters := a.exclude_filters })] := by
      simp only [resolutionEntries, fileEntries, List.flatMap_cons,
        List.flatMap_nil, List.append_nil, hglob]
      rw [if_neg (by simp [hdir])]
      simp [variationEntries, artifactVariations, hstd, hch, hcd, hrel,
        artifactPath]
    rw [hentries]
    simp [dedupFirst]

/-- Witness for C6 amended, at the concrete failing-relpath oracle. -/
theorem resolution_skip_and_fallback_witness :
    (createUploadTasks failEnv [stdCfg] (str "/w") (str "/d")).1.map
      (fun t => t.path) = [pyBasename (str "/x/f.txt")] :=
  (resolution_skip_and_fallback failEnv (str "/d") (str "/w")
      (str "/x/f.txt") stdCfg []).2.2 rfl rfl rfl rfl rfl rfl

/-! ## Upload execution (`Uploader._upload_artifact` / `Uploader.upload`)

The external CAS client is an oracle: each task's subprocess run is
summarised by a `TaskRunEnv` giving the subprocess outcome, the contents
of the dumped digest file, and the parse results of the optional side
files.  `_upload_artifact`'s control flow is translated directly on top
of it. -/

/-- `CasInfo` from `uploader.py`; the client version is a `(major,
minor)` pair compared lexicographically like a Python tuple. -/
structure CasInfoM where
  cas_instance : Str
  cas_service : Str
  client_path : Str
  client_version : Nat × Nat
  deriving Repr, DecidableEq

/-- Python tuple comparison `v >= w` on two-component versions. -/
def versionGe (v w : Nat × Nat) : Bool :=
  decide (w.1 < v.1 ∨ (v.1 = w.1 ∧ w.2 ≤ v.2))

/-- How one subprocess invocation of the CAS client ended. -/
inductive SubprocessOutcome where
  | success
  | calledProcessError
  | timeoutExpired
  | otherSubprocessError
  deriving Repr, DecidableEq

/-- Oracle summary of one task's external-world interaction: the
subprocess outcome, the dumped digest-file contents, the parsed content
details (`none` on `JSONDecodeError`) and the parsed metrics file
(`none` when absent). -/
structure TaskRunEnv where
  outcome : SubprocessOutcome
  digest : Str
  detailsParse : Option Str
  metricsJson : Option Str
  deriving Repr, DecidableEq

/-- `UploadResult` from `uploader.py`. -/
structure UploadResult where
  digest : Str
  content_details : Option Str
  log_file : Str
  deriving Repr, DecidableEq

/-- The per-task log file created by `setup_task_logger` (the random
uuid in the name is omitted). -/
def logFileFor (t : UTask) : Str := t.working_dir ++ str "/_uploader_.log"

/-- The CAS client command line assembled by `_upload_artifact`:
endpoint flags, digest dump, authentication, the variation's path flag,
chunking flags for `chunk`/`chunk_dir`, one `-exclude-filters` per
configured regex, and the version-gated dump flags. -/
def uploadCmd (ci : CasInfoM) (artifact : ArtifactConfig)
    (digestFile detailsFile metricsFile : Str) : List Str :=
  [ci.client_path, str "-cas-instance", ci.cas_instance, str "-cas-addr",
   ci.cas_service, str "-dump-digest", digestFile, str "-use-adc"]
  ++ pathFlagForArtifact artifact
  ++ (if artifact.chunk || artifact.chunk_dir then
        [str "-chunk", str "-avg-chunk-size", natStr 128] else [])
  ++ artifact.exclude_filters.flatMap
      (fun f => [str "-exclude-filters", f])
  ++ (if versionGe ci.client_version (1, 0) then
        [str "-dump-file-details", detailsFile] else [])
  ++ (if versionGe ci.client_version (1, 3) then
        [str "-dump-metrics", metricsFile] else [])

/-- `Uploader._upload_artifact`: `None` on `CalledProcessError`,
`TimeoutExpired` or any other `SubprocessError`; on success the digest
file is read and an empty digest is also a `None` result; content
details populate only when the version supports dumping and parsing
succeeded. -/
def uploadArtifact (ci : CasInfoM) (run : TaskRunEnv) (logFile : Str) :
    Option UploadResult :=
  match run.outcome with
  | SubprocessOutcome.calledProcessError => none
  | SubprocessOutcome.timeoutExpired => none
  | SubprocessOutcome.otherSubprocessError => none
  | SubprocessOutcome.success =>
    if run.digest = [] then none
    else
      some { digest := run.digest,
             content_details :=
               if versionGe ci.client_version (1, 0) then run.detailsParse
               else none,
             log_file := logFile }

/-- `_upload_wrapper` over the whole task list: each task's result paired
with the task. -/
def runTasks (ci : CasInfoM) (runEnv : UTask → TaskRunEnv)
    (tasks : List UTask) : List (Option UploadResult × UTask) :=
  tasks.map (fun t => (uploadArtifact ci (runEnv t) (logFileFor t), t))

/-- The aggregation loop of `Uploader.upload`: each completed task's
digest is recorded under its manifest key when the result is truthy with
a truthy digest, and its content details appended when truthy. -/
def aggregateAux (acc : List (Str × Str) × List (Str × Str)) :
    List (Option UploadResult × UTask) →
      List (Str × Str) × List (Str × Str)
  | [] => acc
  | (result, task) :: rest =>
    let digests :=
      match result with
      | some r =>
        if ¬ (r.digest = []) then dictSet acc.1 task.path r.digest
        else acc.1
      | none => acc.1
    let details :=
      match result with
      | some r =>
        match r.content_details with
        | some cd => if ¬ (cd = []) then acc.2 ++ [(task.path, cd)]
                     else acc.2
        | none => acc.2
      | none => acc.2
    aggregateAux (digests, details) rest

/-- The digest map and content-details list accumulated over all task
results. -/
def aggregateResults (rs : List (Option UploadResult × UTask)) :
    List (Str × Str) × List (Str × Str) :=
  aggregateAux ([], []) rs

/-- `lookup` at a matching head. -/
theorem lookup_cons_pos {β : Type} (a1 : Str) (a2 : β)
    (ds : List (Str × β)) (k : Str) (h : k = a1) :
    List.lookup k ((a1, a2) :: ds) = some a2 := by
  subst h
  simp [List.lookup]

/-- `lookup` past a non-matching head. -/
theorem lookup_cons_neg {β : Type} (a1 : Str) (a2 : β)
    (ds : List (Str × β)) (k : Str) (h : ¬ (k = a1)) :
    List.lookup k ((a1, a2) :: ds) = List.lookup k ds := by
  have hk : (k == a1) = false := beq_eq_false_iff_ne.mpr h
  simp [List.lookup, hk]

/-- Rebinding an existing key keeps it findable with the new value. -/
theorem lookup_mapReplace {β : Type} (d : List (Str × β)) (k : Str) (v : β)
    (h : d.any (fun p => p.1 = k) = true) :
    (d.map (fun p => if p.1 = k then (k, v) else p)).lookup k = some v := by
  induction d with
  | nil => simp at h
  | cons a ds ih =>
    obtain ⟨a1, a2⟩ := a
    simp only [List.map_cons]
    by_cases ha : a1 = k
    · rw [show (if (a1, a2).1 = k then (k, v) else (a1, a2)) = (k, v) from
        if_pos ha]
      exact lookup_cons_pos k v _ k rfl
    · rw [show (if (a1, a2).1 = k then (k, v) else (a1, a2)) = (a1, a2) from
        if_neg ha]
      rw [lookup_cons_neg a1 a2 _ k (fun hkk => ha hkk.symm)]
      refine ih ?_
      rw [List.any_cons] at h
      have hd : decide ((a1, a2).1 = k) = false := decide_eq_false ha
      rw [hd, Bool.false_or] at h
      exact h

/-- Rebinding one key leaves lookups of other keys unchanged. -/
theorem lookup_mapReplace_ne {β : Type} (d : List (Str × β))
    (k k' : Str) (v : β) (h : ¬ (k = k')) :
    (d.map (fun p => if p.1 = k' then (k', v) else p)).lookup k
      = d.lookup k := by
  induction d with
  | nil => rfl
  | cons a ds ih =>
    obtain ⟨a1, a2⟩ := a
    simp only [List.map_cons]
    by_cases ha : a1 = k'
    · rw [show (if (a1, a2).1 = k' then (k', v) else (a1, a2)) = (k', v) from
        if_pos ha]
      rw [lookup_cons_neg k' v _ k h]
      rw [lookup_cons_neg a1 a2 ds k (by rw [ha]; exact h)]
      exact ih
    · rw [show (if (a1, a2).1 = k' then (k', v) else (a1, a2)) = (a1, a2) from
        if_neg ha]
      by_cases hka : k = a1
      · rw [lookup_cons_pos a1 a2 _ k hka, lookup_cons_pos a1 a2 ds k hka]
      · rw [lookup_cons_neg a1 a2 _ k hka, lookup_cons_neg a1 a2 ds k hka]
        exact ih

/-- Appending a differently-keyed binding leaves lookups unchanged. -/
theorem lookup_append_single_ne {β : Type} (d : List (Str × β))
    (k k' : Str) (v : β) (h : ¬ (k = k')) :
    (d ++ [(k', v)]).lookup k = d.lookup k := by
  induction d with
  | nil =>
    rw [List.nil_append, lookup_cons_neg k' v [] k h]
  | cons a ds ih =>
    obtain ⟨a1, a2⟩ := a
    rw [List.cons_append]
    by_cases hka : k = a1
    · rw [lookup_cons_pos a1 a2 _ k hka, lookup_cons_pos a1 a2 ds k hka]
    · rw [lookup_cons_neg a1 a2 _ k hka, lookup_cons_neg a1 a2 ds k hka]
      exact ih

/-- A key absent from `d` passes lookup through an append. -/
theorem lookup_append_no_key {β : Type} (d l : List (Str × β)) (k : Str)
    (h : ∀ p ∈ d, ¬ (p.1 = k)) : (d ++ l).lookup k = l.lookup k := by
  induction d with
  | nil => rfl
  | cons a ds ih =>
    obtain ⟨a1, a2⟩ := a
    rw [List.cons_append]
    rw [lookup_cons_neg a1 a2 _ k
      (fun hk => h (a1, a2) (List.mem_cons_self _ _) hk.symm)]
    exact ih (fun p hp => h p (List.mem_cons_of_mem _ hp))

/-- After `d[k] = v`, looking up `k` yields `v`. -/
theorem dictSet_lookup_self {β : Type} (d : List (Str × β)) (k : Str)
    (v : β) : (dictSet d k v).lookup k = some v := by
  unfold dictSet
  by_cases h : d.any (fun p => p.1 = k) = true
  · rw [if_pos h]
    exact lookup_mapReplace d k v h
  · rw [if_neg h]
    have h' : ∀ p ∈ d, ¬ (p.1 = k) := by
      intro p hp hpk
      exact h (List.any_eq_true.mpr ⟨p, hp, by simpa using hpk⟩)
    rw [lookup_append_no_key d _ k h']
    exact lookup_cons_pos k v [] k rfl

/-- After `d[k'] = v`, looking up a different key is unchanged. -/
theorem dictSet_lookup_ne {β : Type} (d : List (Str × β)) (k k' : Str)
    (v : β) (h : ¬ (k = k')) :
    (dictSet d k' v).lookup k = d.lookup k := by
  unfold dictSet
  by_cases hany : d.any (fun p => p.1 = k') = true
  · rw [if_pos hany]
    exact lookup_mapReplace_ne d k k' v h
  · rw [if_neg hany]
    exact lookup_append_single_ne d k k' v h

/-- A successful `_upload_artifact` result always carries a non-empty
digest. -/
theorem uploadArtifact_some_digest (ci : CasInfoM) (run : TaskRunEnv)
    (lf : Str) (r : UploadResult)
    (h : uploadArtifact ci run lf = some r) : ¬ (r.digest = []) := by
  unfold uploadArtifact at h
  cases ho : run.outcome <;> rw [ho] at h
  case success =>
    by_cases hd : run.digest = []
    · rw [if_pos hd] at h
      cases h
    · rw [if_neg hd] at h
      cases h
      exact hd
  all_goals cases h

/-- Task results whose keys differ from `k` never change `k`'s digest
binding. -/
theorem aggregateAux_lookup_untouched
    (rs : List (Option UploadResult × UTask))
    (acc : List (Str × Str) × List (Str × Str)) (k : Str)
    (hk : ∀ p ∈ rs, ¬ (k = p.2.path)) :
    (aggregateAux acc rs).1.lookup k = acc.1.lookup k := by
  induction rs generalizing acc with
  | nil => rfl
  | cons e rest ih =>
    obtain ⟨result, task⟩ := e
    have hk1 : ¬ (k = task.path) :=
      hk (result, task) (List.mem_cons_self _ _)
    simp only [aggregateAux]
    refine Eq.trans (ih _ (fun p hp => hk p (List.mem_cons_of_mem _ hp))) ?_
    cases result with
    | none => rfl
    | some r =>
      dsimp only
      by_cases hd : r.digest = []
      · rw [if_neg (not_not_intro hd)]
      · rw [if_pos hd]
        exact dictSet_lookup_ne _ _ _ _ hk1

/-- The digest map records exactly each task's own outcome: a task's key
binds its digest when its result was truthy with a truthy digest and
passes through otherwise, independent of sibling tasks. -/
theorem runTasks_lookup (ci : CasInfoM) (runEnv : UTask → TaskRunEnv)
    (tasks : List UTask) (acc : List (Str × Str) × List (Str × Str))
    (t : UTask) (ht : t ∈ tasks)
    (hnodup : (tasks.map (fun x => x.path)).Nodup) :
    (aggregateAux acc (runTasks ci runEnv tasks)).1.lookup t.path =
      match uploadArtifact ci (runEnv t) (logFileFor t) with
      | some r => some r.digest
      | none => acc.1.lookup t.path := by
  induction tasks generalizing acc with
  | nil => cases ht
  | cons x xs ih =>
    rw [List.map_cons, List.nodup_cons] at hnodup
    obtain ⟨hx_notin, hnodup2⟩ := hnodup
    rcases List.mem_cons.mp ht with rfl | ht2
    · rw [runTasks, List.map_cons]
      simp only [aggregateAux]
      have huntouched : ∀ p ∈ (xs.map (fun u =>
          (uploadArtifact ci (runEnv u) (logFileFor u), u))),
          ¬ (t.path = p.2.path) := by
        intro p hp he
        rcases List.mem_map.mp hp with ⟨u, hu, heq⟩
        have hpu : p.2 = u := by rw [← heq]
        exact hx_notin (List.mem_map.mpr
          ⟨u, hu, (he.trans (congrArg UTask.path hpu)).symm⟩)
      rw [aggregateAux_lookup_untouched _ _ _ huntouched]
      cases hres : uploadArtifact ci (runEnv t) (logFileFor t) with
      | none => rfl
      | some r =>
        dsimp only
        have hd := uploadArtifact_some_digest ci (runEnv t) (logFileFor t)
          r hres
        rw [if_pos hd]
        exact dictSet_lookup_self _ _ _
    · have hne : ¬ (t.path = x.path) := by
        intro he
        exact hx_notin (he ▸ List.mem_map.mpr ⟨t, ht2, rfl⟩)
      rw [runTasks, List.map_cons]
      simp only [aggregateAux]
      rw [show (xs.map (fun u =>
          (uploadArtifact ci (runEnv u) (logFileFor u), u)))
          = runTasks ci runEnv xs from rfl]
      rw [ih _ ht2 hnodup2]
      cases uploadArtifact ci (runEnv t) (logFileFor t) with
      | some r => rfl
      | none =>
        cases uploadArtifact ci (runEnv x) (logFileFor x) with
        | none => rfl
        | some rx =>
          dsimp only
          by_cases hd : rx.digest = []
          · rw [if_neg (not_not_intro hd)]
          · rw [if_pos hd]
            exact dictSet_lookup_ne _ _ _ _ hne

/-- C4: per-task failure containment: every subprocess-level error
(`CalledProcessError`, `TimeoutExpired`, other `SubprocessError`) and
every zero-exit run that dumps an empty digest gives that task a `None`
result; all sibling tasks are still executed and aggregated; a failed
task's key is absent from the digests manifest, and every succeeded
task's key is present with its digest. -/
theorem upload_failure_containment (ci : CasInfoM)
    (runEnv : UTask → TaskRunEnv) (tasks : List UTask)
    (hnodup : (tasks.map (fun t => t.path)).Nodup) :
    ((runTasks ci runEnv tasks).length = tasks.length)
    ∧ (∀ t ∈ tasks, (runEnv t).outcome ≠ SubprocessOutcome.success →
        uploadArtifact ci (runEnv t) (logFileFor t) = none)
    ∧ (∀ t ∈ tasks, (runEnv t).outcome = SubprocessOutcome.success →
        (runEnv t).digest = [] →
        uploadArtifact ci (runEnv t) (logFileFor t) = none)
    ∧ (∀ t ∈ tasks, uploadArtifact ci (runEnv t) (logFileFor t) = none →
        (aggregateResults (runTasks ci runEnv tasks)).1.lookup t.path
          = none)
    ∧ (∀ t ∈ tasks, ∀ r,
        uploadArtifact ci (runEnv t) (logFileFor t) = some r →
        (aggregateResults (runTasks ci runEnv tasks)).1.lookup t.path
          = some r.digest) := by
  refine ⟨by simp [runTasks], ?_, ?_, ?_, ?_⟩
  · intro t _ hout
    unfold uploadArtifact
    cases ho : (runEnv t).outcome
    case success => exact absurd ho hout
    all_goals rfl
  · intro t _ hout hdig
    unfold uploadArtifact
    rw [hout, if_pos hdig]
  · intro t ht hnone
    have := runTasks_lookup ci runEnv tasks ([], []) t ht hnodup
    rw [hnone] at this
    simpa [aggregateResults, List.lookup] using this
  · intro t ht r hsome
    have := runTasks_lookup ci runEnv tasks ([], []) t ht hnodup
    rw [hsome] at this
    simpa [aggregateResults] using this

/-- Concrete task for the C4 witness. -/
def wTask : UTask :=
  { artifact := stdCfg, path := str "f.txt", working_dir := str "/w",
    metrics_file := str "/w/tmp0" }

/-- Concrete failing run oracle for the C4 witness. -/
def wRunFail : UTask → TaskRunEnv :=
  fun _ => { outcome := SubprocessOutcome.timeoutExpired, digest := [],
             detailsParse := none, metricsJson := none }

/-- Concrete CAS endpoint description for witnesses. -/
def wCas : CasInfoM :=
  { cas_instance := str "i", cas_service := str "s",
    client_path := str "c", client_version := (1, 0) }

/-- Witness for C4: a timed-out task's key is absent from the digest
map. -/
theorem upload_failure_containment_witness :
    (aggregateResults (runTasks wCas wRunFail [wTask])).1.lookup
      wTask.path = none :=
  (upload_failure_containment wCas wRunFail [wTask]
      (by decide)).2.2.2.1 wTask (List.mem_singleton.mpr rfl) (by decide)

/-! ## `Uploader.upload` and dry-run behaviour -/

/-- `DIGESTS_PATH` from `uploader.py`. -/
def DIGESTS_PATH : Str := str "cas_digests.json"

/-- `CONTENT_DETAILS_PATH` from `uploader.py`. -/
def CONTENT_DETAILS_PATH : Str := str "logs/cas_content_details.json"

/-- `os.path.join` for a relative second component. -/
def joinPath (dir p : Str) : Str := dir ++ '/' :: p

/-- Left-justified padding of Python's `f"{s:<n}"`. -/
def padLeftJust (n : Nat) (s : Str) : Str :=
  s ++ List.replicate (n - s.length) ' '

/-- The lines printed by `Uploader._print_tasks`: one
`f"{path:<40} {unzip} {source}"` line per task, then the total count. -/
def printTasksLines (tasks : List UTask) : List Str :=
  tasks.map (fun task =>
    padLeftJust 40 task.path ++
      ' ' :: (if task.artifact.unzip then '+' else '-') :: ' ' ::
        task.artifact.source_path)
  ++ [str "Total: " ++ natStr tasks.length ++ str " files."]

/-- `Uploader.upload`: resolves tasks inside a fresh working directory,
then either prints the plan (dry run) or runs every task and writes the
digest and content-details manifests under the output directory.  The
returned value is the accumulated `CasMetrics` artifact list and the
effect trace; worker count and completion order only affect scheduling,
so aggregation is modelled in submission order. -/
def upload (env : ResolveEnv) (ci : CasInfoM)
    (runEnv : UTask → TaskRunEnv) (artifacts : List ArtifactConfig)
    (dist wd : Str) (dryrun : Bool) : List Str × List Effect :=
  let r := createUploadTasks env artifacts wd dist
  if dryrun then
    ([], r.2 ++ (printTasksLines r.1).map Effect.printOut)
  else
    let executed := runTasks ci runEnv r.1
    (executed.filterMap (fun e => (runEnv e.2).metricsJson),
     r.2
       ++ executed.flatMap (fun e =>
            Effect.subprocessRun (uploadCmd ci e.2.artifact
              (str "digest_tmp") (str "details_tmp") e.2.metrics_file)
            :: (match (runEnv e.2).metricsJson with
                | some _ => [Effect.removeFile e.2.metrics_file]
                | none => []))
       ++ [Effect.writeFile (joinPath dist DIGESTS_PATH),
           Effect.writeFile (joinPath dist CONTENT_DETAILS_PATH)])

/-- One entry per surviving task. -/
theorem mkTasksFrom_length (wd : Str) (c : Nat)
    (es : List (Str × ArtifactConfig)) :
    (mkTasksFrom wd c es).length = es.length := by
  induction es generalizing c with
  | nil => rfl
  | cons e es ih => simp [mkTasksFrom, ih]

/-- Resolution's side effects are exactly one temp-file creation per
surviving task. -/
theorem createUploadTasks_effects (env : ResolveEnv)
    (artifacts : List ArtifactConfig) (wd dist : Str) :
    (createUploadTasks env artifacts wd dist).2 =
      List.replicate (createUploadTasks env artifacts wd dist).1.length
        (Effect.mkstemp wd) := by
  obtain ⟨h1, h2⟩ := createUploadTasks_spec env artifacts wd dist
  rw [h1, h2, mkTasksFrom_length]

/-- C9 counterexample: a dry run over a non-empty task set still creates
a per-task metrics temp file in the working directory (task resolution
runs before the dry-run check), so its file I/O is not limited to
stdout. -/
theorem dryrun_file_io_counterexample :
    Effect.mkstemp (str "/w") ∈
      (upload wEnv wCas wRunFail [stdCfg] (str "/d") (str "/w") true).2
    ∧ ∀ s, Effect.mkstemp (str "/w") ≠ Effect.printOut s :=
  ⟨by decide, fun _ h => Effect.noConfusion h⟩

/-- C9 amended: a dry run prints each task's manifest key, unzip
indicator and source path plus a total count, performs zero subprocess
invocations, writes zero files to the output directory (in particular
neither manifest), removes nothing, and returns an empty metrics result;
its only file I/O beyond stdout is creating the per-task metrics temp
files in the ephemeral working directory during task resolution. -/
theorem dryrun_plan_only (env : ResolveEnv) (ci : CasInfoM)
    (runEnv : UTask → TaskRunEnv) (artifacts : List ArtifactConfig)
    (dist wd : Str) :
    ((upload env ci runEnv artifacts dist wd true).1 = [])
    ∧ (∀ cmd, Effect.subprocessRun cmd ∉
        (upload env ci runEnv artifacts dist wd true).2)
    ∧ (∀ p, Effect.writeFile p ∉
        (upload env ci runEnv artifacts dist wd true).2)
    ∧ (∀ p, Effect.removeFile p ∉
        (upload env ci runEnv artifacts dist wd true).2)
    ∧ ((upload env ci runEnv artifacts dist wd true).2 =
        List.replicate (createUploadTasks env artifacts wd dist).1.length
          (Effect.mkstemp wd)
        ++ (printTasksLines
            (createUploadTasks env artifacts wd dist).1).map
            Effect.printOut) := by
  have htrace : (upload env ci runEnv artifacts dist wd true).2 =
      List.replicate (createUploadTasks env artifacts wd dist).1.length
        (Effect.mkstemp wd)
      ++ (printTasksLines (createUploadTasks env artifacts wd dist).1).map
          Effect.printOut := by
    show (createUploadTasks env artifacts wd dist).2 ++ _ = _
    rw [createUploadTasks_effects]
  refine ⟨rfl, ?_, ?_, ?_, htrace⟩ <;>
    (intro z hmem
     rw [htrace] at hmem
     rcases List.mem_append.mp hmem with hmem | hmem
     · exact Effect.noConfusion (List.eq_of_mem_replicate hmem)
     · rcases List.mem_map.mp hmem with ⟨s, hs1, hs2⟩
       exact Effect.noConfusion hs2)

/-- Witness for C9 amended: the concrete dry run returns empty metrics. -/
theorem dryrun_plan_only_witness :
    (upload wEnv wCas wRunFail [stdCfg] (str "/d") (str "/w") true).1
      = [] :=
  (dryrun_plan_only wEnv wCas wRunFail [stdCfg] (str "/d") (str "/w")).1

/-! ## Glob semantics of `_glob_wrapper` (C8)

To settle the matching claim, paths are modelled as lists of components
(`glob.glob` is the Python standard library; its documented matching
semantics for the two pattern shapes `_glob_wrapper` builds — a literal
wildcard-free pattern, and `dist + '/**/' + pattern` with
`recursive=True`, where `**` spans zero or more directories — is given a
component-level model).  The branch structure is translated from
`_glob_wrapper`. -/

/-- Splits a string into path components at `/`. -/
def splitSlash : Str → List Str
  | [] => [[]]
  | c :: rest =>
    let r := splitSlash rest
    if c = '/' then [] :: r
    else (c :: r.headD []) :: r.tail

/-- All suffixes of a list, longest first. -/
def listSuffixes : List Str → List (List Str)
  | [] => [[]]
  | a :: l => (a :: l) :: listSuffixes l

/-- Component matching of a glob pattern whose components are
wildcard-free except for `**`, which in recursive mode matches zero or
more leading components (equivalently: the remaining pattern matches
some suffix).  Hidden-file filtering is not modelled. -/
def globMatchComps (recursive : Bool) : List Str → List Str → Bool
  | [], fs => fs = []
  | p :: ps, fs =>
    if recursive && p = str "**" then
      (listSuffixes fs).any (fun s => globMatchComps recursive ps s)
    else
      match fs with
      | [] => false
      | f :: fs2 => p = f && globMatchComps recursive ps fs2

/-- `_glob_wrapper`'s globbing over a filesystem `fs` of existing
component paths below a `dist` directory: a `./`-pattern is globbed
non-recursively at the single location `dist + pattern[1:]`, any other
pattern recursively as `dist + '/**/' + pattern`. -/
def globWrapperComps (fs : List (List Str)) (dist : List Str)
    (src : Str) : List (List Str) :=
  if (str "./").isPrefixOf src then
    fs.filter (fun f => decide (f = dist ++ splitSlash (src.drop 2)))
  else
    fs.filter (fun f =>
      globMatchComps true (dist ++ [str "**"] ++ splitSlash src) f)

/-- A slash-free string is a single path component. -/
theorem splitSlash_no_slash (s : Str) (h : '/' ∉ s) :
    splitSlash s = [s] := by
  induction s with
  | nil => rfl
  | cons c rest ih =>
    simp only [List.mem_cons, not_or] at h
    have hc : ¬ (c = '/') := fun hcc => h.1 hcc.symm
    rw [splitSlash]
    simp only [hc, ite_false, if_neg, ih h.2]
    rfl

/-- A literal head component never matches the empty path. -/
theorem globMatch_lit_nil (d : Str) (ps : List Str)
    (hne : ¬ (d = str "**")) :
    globMatchComps true (d :: ps) [] = false := by
  rw [globMatchComps]
  simp [hne]

/-- A literal head component matches exactly an equal path head. -/
theorem globMatch_lit_cons (d : Str) (ps : List Str) (f : Str)
    (fs : List Str) (hne : ¬ (d = str "**")) :
    globMatchComps true (d :: ps) (f :: fs)
      = (decide (d = f) && globMatchComps true ps fs) := by
  rw [globMatchComps]
  simp [hne]

/-- A `**` head lets the remaining pattern match any suffix. -/
theorem globMatch_starstar_eq (ps fs : List Str) :
    globMatchComps true (str "**" :: ps) fs
      = (listSuffixes fs).any (fun s => globMatchComps true ps s) := by
  cases fs with
  | nil =>
    rw [globMatchComps]
    simp
  | cons f fs2 =>
    rw [globMatchComps]
    simp

/-- Suffix membership is existence of a prefix. -/
theorem mem_listSuffixes (s f : List Str) :
    s ∈ listSuffixes f ↔ ∃ pre, f = pre ++ s := by
  induction f with
  | nil =>
    simp only [listSuffixes, List.mem_singleton]
    constructor
    · rintro rfl
      exact ⟨[], rfl⟩
    · rintro ⟨pre, hp⟩
      rcases List.append_eq_nil.mp hp.symm with ⟨_, h2⟩
      exact h2
  | cons a l ih =>
    simp only [listSuffixes, List.mem_cons]
    constructor
    · rintro (rfl | hs)
      · exact ⟨[], rfl⟩
      · rcases ih.mp hs with ⟨pre, rfl⟩
        exact ⟨a :: pre, rfl⟩
    · rintro ⟨pre, hp⟩
      cases pre with
      | nil => exact Or.inl hp.symm
      | cons p ps =>
        right
        refine ih.mpr ⟨ps, ?_⟩
        have hcc : a :: l = p :: (ps ++ s) := hp
        cases hcc
        rfl

/-- A single wildcard-free component pattern matches exactly itself. -/
theorem globMatch_single_iff (n : Str) (s : List Str)
    (hn : ¬ (n = str "**")) :
    globMatchComps true [n] s = true ↔ s = [n] := by
  cases s with
  | nil =>
    rw [globMatch_lit_nil _ _ hn]
    simp
  | cons c cs =>
    rw [globMatch_lit_cons _ _ _ _ hn]
    constructor
    · intro h
      rw [Bool.and_eq_true] at h
      rcases h with ⟨h1, h2⟩
      have h3 : cs = [] := of_decide_eq_true h2
      have hnc : n = c := of_decide_eq_true h1
      rw [h3, hnc]
    · intro h
      cases h
      rw [Bool.and_eq_true]
      exact ⟨decide_eq_true rfl, decide_eq_true rfl⟩

/-- `**/name` matches exactly the paths ending in component `name`, at
any depth including zero intermediate directories. -/
theorem globMatch_starstar_single (n : Str) (f : List Str)
    (hn : ¬ (n = str "**")) :
    globMatchComps true [str "**", n] f = true ↔
      ∃ mid, f = mid ++ [n] := by
  rw [globMatch_starstar_eq, List.any_eq_true]
  constructor
  · rintro ⟨s, hs, hm⟩
    rcases (mem_listSuffixes s f).mp hs with ⟨pre, rfl⟩
    have hsn := (globMatch_single_iff n s hn).mp hm
    exact ⟨pre, by rw [hsn]⟩
  · rintro ⟨mid, rfl⟩
    exact ⟨[n], (mem_listSuffixes _ _).mpr ⟨mid, rfl⟩,
      (globMatch_single_iff n [n] hn).mpr rfl⟩

/-- A `**`-free prefix of the pattern consumes an equal prefix of the
path. -/
theorem globMatch_consume_lit : ∀ (dist rest f : List Str),
    str "**" ∉ dist →
    (globMatchComps true (dist ++ rest) f = true ↔
      ∃ f2, f = dist ++ f2 ∧ globMatchComps true rest f2 = true)
  | [], rest, f, _ => by simp
  | d :: ds, rest, f, hd => by
    have hne : ¬ (d = str "**") := fun h => hd (h ▸ List.mem_cons_self d ds)
    have hd2 : str "**" ∉ ds := fun h => hd (List.mem_cons_of_mem d h)
    cases f with
    | nil =>
      rw [List.cons_append, globMatch_lit_nil _ _ hne]
      simp
    | cons c cs =>
      rw [List.cons_append, globMatch_lit_cons _ _ _ _ hne]
      constructor
      · intro h
        rw [Bool.and_eq_true] at h
        rcases h with ⟨h1, h2⟩
        have hdc : d = c := of_decide_eq_true h1
        rcases (globMatch_consume_lit ds rest cs hd2).mp h2 with
          ⟨f2, hf2, hm⟩
        exact ⟨f2, by rw [hdc, hf2]; rfl, hm⟩
      · rintro ⟨f2, hf2, hm⟩
        have hcc : c :: cs = d :: (ds ++ f2) := hf2
        cases hcc
        rw [Bool.and_eq_true]
        exact ⟨decide_eq_true rfl,
          (globMatch_consume_lit ds rest _ hd2).mpr ⟨f2, rfl, hm⟩⟩

/-- C8: a `source_path` beginning with `./` is globbed at the single
location directly relative to the output directory (no recursive
descent), so `./name` matches only `dist/name`; any other pattern is
globbed recursively as `**/pattern`, so `name` matches that component at
any depth — including directly under the output directory. -/
theorem glob_pattern_semantics (fs : List (List Str)) (dist : List Str)
    (name : Str) (hns : '/' ∉ name)
    (hnd : ¬ ((str "./").isPrefixOf name = true))
    (hstar : str "**" ∉ dist) (hnn : ¬ (name = str "**")) :
    (∀ f, f ∈ globWrapperComps fs dist ('.' :: '/' :: name) ↔
        f ∈ fs ∧ f = dist ++ [name])
    ∧ (∀ f, f ∈ globWrapperComps fs dist name ↔
        f ∈ fs ∧ ∃ mid, f = dist ++ mid ++ [name])
    ∧ (∀ f, f ∈ fs → f = dist ++ [name] →
        f ∈ globWrapperComps fs dist name) := by
  have hsplit : splitSlash name = [name] := splitSlash_no_slash name hns
  have hbranch1 : (str "./").isPrefixOf ('.' :: '/' :: name) = true := by
    rw [List.isPrefixOf_iff_prefix]
    exact ⟨name, rfl⟩
  have hmain : ∀ f, f ∈ globWrapperComps fs dist name ↔
      f ∈ fs ∧ ∃ mid, f = dist ++ mid ++ [name] := by
    intro f
    unfold globWrapperComps
    rw [if_neg (by simp [hnd])]
    rw [List.mem_filter]
    have hassoc : dist ++ [str "**"] ++ splitSlash name
        = dist ++ (str "**" :: [name]) := by
      rw [hsplit, List.append_assoc]
      rfl
    rw [hassoc]
    constructor
    · rintro ⟨hf, hm⟩
      rcases (globMatch_consume_lit dist _ f hstar).mp hm with
        ⟨f2, hf2, hm2⟩
      rcases (globMatch_starstar_single name f2 hnn).mp hm2 with
        ⟨mid, hmid⟩
      exact ⟨hf, mid, by rw [hf2, hmid, List.append_assoc]⟩
    · rintro ⟨hf, mid, hmid⟩
      refine ⟨hf, (globMatch_consume_lit dist _ f hstar).mpr
        ⟨mid ++ [name], by rw [hmid, List.append_assoc], ?_⟩⟩
      exact (globMatch_starstar_single name _ hnn).mpr ⟨mid, rfl⟩
  refine ⟨?_, hmain, ?_⟩
  · intro f
    unfold globWrapperComps
    rw [if_pos hbranch1]
    rw [List.mem_filter]
    show f ∈ fs ∧ decide (f = dist ++ splitSlash name) = true ↔ _
    rw [hsplit]
    simp
  · intro f hf hfe
    exact (hmain f).mpr ⟨hf, [], by simp [hfe]⟩

/-- Concrete filesystem for the C8 witness: `x.zip` directly under `d`
and below `d/sub`. -/
def gfs : List (List Str) :=
  [[str "d", str "x.zip"], [str "d", str "sub", str "x.zip"],
   [str "d", str "sub", str "other.txt"]]

/-- Witness for C8: the recursive pattern finds both copies of `x.zip`,
and the `./` pattern reaches the direct child. -/
theorem glob_pattern_semantics_witness :
    ([str "d", str "x.zip"] ∈ globWrapperComps gfs [str "d"] (str "x.zip"))
    ∧ ([str "d", str "sub", str "x.zip"] ∈
        globWrapperComps gfs [str "d"] (str "x.zip"))
    ∧ ([str "d", str "x.zip"] ∈
        globWrapperComps gfs [str "d"] ('.' :: '/' :: str "x.zip")) :=
  ⟨(glob_pattern_semantics gfs [str "d"] (str "x.zip") (by decide)
      (by decide) (by decide) (by decide)).2.2 _ (by decide) (by decide),
   ((glob_pattern_semantics gfs [str "d"] (str "x.zip") (by decide)
      (by decide) (by decide) (by decide)).2.1 _).mpr
     ⟨by decide, [str "sub"], by decide⟩,
   ((glob_pattern_semantics gfs [str "d"] (str "x.zip") (by decide)
      (by decide) (by decide) (by decide)).1 _).mpr ⟨by decide, by decide⟩⟩

end ContentUploader
